import Mathlib

/-!
Verification of the crash-log FormID analysis core of Scanner111-TS.

This file gives a shallow embedding, in Lean, of the TypeScript modules

  * src/lib/formid/extractor.ts  (FormID extraction from call-stack lines)
  * src/lib/formid/resolver.ts   (plugin-index resolution)
  * src/lib/formid/analyzer.ts   (the forensic analyzer)
  * src/lib/database/formid-db.ts (the SQLite-backed lookup store with its
    bounded in-process query cache)
  * src/lib/scan-log/index.ts    (the log segmenter)

and proves the testable properties of the specification about them.

Modelling conventions:
  * JavaScript strings are Lean `String`s; the case conversions and the
    character classes of the regexes are modelled on the ASCII range, which
    covers every pattern the scanner uses.
  * A JavaScript `Map` is modelled as an insertion-ordered association list
    `List (key × value)`; `Map.set` updates an existing key in place and
    appends a fresh key, `Map.delete` removes the entry, and iteration order
    is list order, exactly as in JS.
  * The SQLite connection of a game is modelled by a function from the
    (uppercased) 6-digit record id and the plugin name to
    `Except Unit (Option FormIdDatabaseEntry)`: `Except.error` models a
    statement that throws (e.g. a corrupt backing file), `Except.ok none` a
    query with no matching row.  The per-game table name selection of
    getTableName is folded into the game argument of that function.
  * Asynchronous filesystem collaborators (findAvailableDatabases, opening
    a database file) are passed in as explicit oracle arguments.
  * The store-access trace returned alongside results by the lookup
    functions is ghost instrumentation used only to state "served from the
    cache without querying the store" properties; the TypeScript functions
    return only the first component.
-/

set_option maxHeartbeats 1000000

namespace Scanner

/-! ### ASCII character helpers (JS string semantics on the ASCII range) -/

/-- JS `String.prototype.toUpperCase`, per character, on the ASCII range. -/
def toUpperChar (c : Char) : Char :=
  if 97 ≤ c.toNat ∧ c.toNat ≤ 122 then Char.ofNat (c.toNat - 32) else c

/-- JS `String.prototype.toLowerCase`, per character, on the ASCII range. -/
def toLowerChar (c : Char) : Char :=
  if 65 ≤ c.toNat ∧ c.toNat ≤ 90 then Char.ofNat (c.toNat + 32) else c

/-- JS `toUpperCase` on a whole string. -/
def toUpperCaseStr (s : String) : String := String.mk (s.data.map toUpperChar)

/-- The character class `[0-9A-Fa-f]` of the FormID regex. -/
def isHexDigit (c : Char) : Bool :=
  decide ((48 ≤ c.toNat ∧ c.toNat ≤ 57) ∨ (65 ≤ c.toNat ∧ c.toNat ≤ 70) ∨
    (97 ≤ c.toNat ∧ c.toNat ≤ 102))

/-- Value of a single hexadecimal digit (0 on non-hex input, which models
the NaN propagation of `Number.parseInt` only on inputs the code never
produces). -/
def hexVal (c : Char) : Nat :=
  if 48 ≤ c.toNat ∧ c.toNat ≤ 57 then c.toNat - 48
  else if 97 ≤ c.toNat ∧ c.toNat ≤ 102 then c.toNat - 87
  else if 65 ≤ c.toNat ∧ c.toNat ≤ 70 then c.toNat - 55
  else 0

/-- The uppercase hexadecimal digit of a value below 16, as produced by
`Number.prototype.toString(16)` followed by `toUpperCase`. -/
def hexDigitUpper (n : Nat) : Char :=
  if n < 10 then Char.ofNat (48 + n) else Char.ofNat (55 + n)

/-! ### JavaScript `Map` model: insertion-ordered association lists -/

/-- JS `Map.prototype.get` (`undefined` = `none`). -/
def mapGet? {α β : Type} [DecidableEq α] : List (α × β) → α → Option β
  | [], _ => none
  | (a, b) :: t, k => if a = k then some b else mapGet? t k

/-- JS `Map.prototype.has`. -/
def mapHas {α β : Type} [DecidableEq α] (m : List (α × β)) (k : α) : Bool :=
  (mapGet? m k).isSome

/-- JS `Map.prototype.set`: update an existing key in place, append
a fresh key. -/
def mapSet {α β : Type} [DecidableEq α] : List (α × β) → α → β → List (α × β)
  | [], k, v => [(k, v)]
  | (a, b) :: t, k, v => if a = k then (k, v) :: t else (a, b) :: mapSet t k v

/-- JS `Map.prototype.delete` (keys are unique in a `Map`, so removing the
first occurrence is removal of the entry). -/
def mapDelete {α β : Type} [DecidableEq α] : List (α × β) → α → List (α × β)
  | [], _ => []
  | (a, b) :: t, k => if a = k then t else (a, b) :: mapDelete t k

/-! ### FormID extractor (src/lib/formid/extractor.ts) -/

/-- JS `\s` on the ASCII range (the whitespace the scanner's inputs use). -/
def isJsSpace (c : Char) : Bool :=
  decide (c = ' ' ∨ c = '\t' ∨ c = '\n' ∨ c = '\r' ∨ c.toNat = 11 ∨ c.toNat = 12)

/-- JS `\w` (word character), as used by the `\b` boundary of the FormID
regex. -/
def isWordChar (c : Char) : Bool :=
  decide ((65 ≤ c.toNat ∧ c.toNat ≤ 90) ∨ (97 ≤ c.toNat ∧ c.toNat ≤ 122) ∨
    (48 ≤ c.toNat ∧ c.toNat ≤ 57) ∨ c = '_')

/-- Case-insensitive comparison of an input character against a lowercase
pattern letter (the `i` flag of the regex). -/
def lowEq (c : Char) (d : Char) : Bool := toLowerChar c = d

/-- One attempt of the regex `/Form\s*ID:?\s*0x([0-9A-Fa-f]{8})\b/gi` at the
head of the character list.  On success, returns the captured 8 hex digits
and the characters after the match.  The `\s*` and `:?` parts are matched
greedily, which is equivalent to the regex's backtracking search here
because the characters that follow them in the pattern cannot also start
them. -/
def matchFormIdAt (l : List Char) : Option (String × List Char) :=
  match l with
  | c1 :: c2 :: c3 :: c4 :: rest =>
    if lowEq c1 'f' ∧ lowEq c2 'o' ∧ lowEq c3 'r' ∧ lowEq c4 'm' then
      match rest.dropWhile isJsSpace with
      | ci :: cd :: r2 =>
        if lowEq ci 'i' ∧ lowEq cd 'd' then
          let r3 := match r2 with
            | ':' :: t => t
            | t => t
          match r3.dropWhile isJsSpace with
          | z :: x :: r5 =>
            if z = '0' ∧ (x = 'x' ∨ x = 'X') then
              let digits := r5.take 8
              if digits.length = 8 ∧ digits.all isHexDigit then
                match r5.drop 8 with
                | [] => some (String.mk digits, [])
                | c :: r6 =>
                  if isWordChar c then none else some (String.mk digits, c :: r6)
              else none
            else none
          | _ => none
        else none
      | _ => none
    else none
  | _ => none

/-- The successive non-overlapping matches of the global FormID regex, in
left-to-right order: the JS `exec` loop restarts each search at the end of
the previous match.  The fuel argument (the length of the initial list) is
an upper bound on the number of scan steps; every step consumes at least
one character, so it never runs out. -/
def findFormIdMatchesAux : Nat → List Char → List String
  | 0, _ => []
  | _ + 1, [] => []
  | fuel + 1, c :: cs =>
    match matchFormIdAt (c :: cs) with
    | some (s, r) => s :: findFormIdMatchesAux fuel r
    | none => findFormIdMatchesAux fuel cs

def findFormIdMatches (l : List Char) : List String :=
  findFormIdMatchesAux l.length l

/-- `ExtractedFormId` (src/types/index.ts). -/
structure ExtractedFormId where
  formId : String
  pluginIndex : Nat
  recordId : String
  lineNumber : Nat
deriving DecidableEq

/-- `parsePluginIndex`: `Number.parseInt(formId.slice(0, 2), 16)`, modelled
as the value of the run of hex digits of the two-character slice (every
call site passes a regex-validated 8-hex-digit string, so the slice is two
hex digits). -/
def parsePluginIndex (formId : String) : Nat :=
  ((formId.data.take 2).takeWhile isHexDigit).foldl (fun a c => 16 * a + hexVal c) 0

/-- `parseRecordId`: `formId.slice(2).toUpperCase()`. -/
def parseRecordId (formId : String) : String :=
  toUpperCaseStr (String.mk (formId.data.drop 2))

/-- `shouldFilterFormId`: `formId.toUpperCase().startsWith('FF')`. -/
def shouldFilterFormId (formId : String) : Bool :=
  (toUpperCaseStr formId).data.take 2 = ['F', 'F']

/-- `extractFormIds` on one recorded line (the body of the per-line loop).
An empty line is skipped by the `if (!line) continue` truthiness guard. -/
def extractLine (lineNumber : Nat) (line : String) : List ExtractedFormId :=
  if line = "" then []
  else
    (findFormIdMatches line.data).filterMap (fun m =>
      let hex := toUpperCaseStr m
      if hex = "" then none
      else if shouldFilterFormId hex then none
      else some ⟨hex, parsePluginIndex hex, parseRecordId hex, lineNumber⟩)

def extractFormIdsAux : Nat → List String → List ExtractedFormId
  | _, [] => []
  | i, line :: rest => extractLine i line ++ extractFormIdsAux (i + 1) rest

/-- `extractFormIds` (src/lib/formid/extractor.ts): scan every line, in line
order and left-to-right within a line, filtering FF-prefixed identifiers. -/
def extractFormIds (lines : List String) : List ExtractedFormId :=
  extractFormIdsAux 0 lines

/-- `countFormIdOccurrences`: occurrence counts keyed by the full 8-digit
identifier, in a JS `Map`. -/
def countFormIdOccurrences (formIds : List ExtractedFormId) : List (String × Nat) :=
  formIds.foldl (fun counts e =>
    mapSet counts e.formId ((mapGet? counts e.formId).getD 0 + 1)) []

/-! ### Index resolver (src/lib/formid/resolver.ts) -/

/-- `index.toString(16).toUpperCase()`, via fueled division (the fuel
`index + 1` is always sufficient since `n / 16 < n` for `n ≥ 16`). -/
def toHexAux : Nat → Nat → List Char
  | 0, _ => []
  | fuel + 1, n =>
    if n < 16 then [hexDigitUpper n]
    else toHexAux fuel (n / 16) ++ [hexDigitUpper (n % 16)]

/-- JS `String.prototype.padStart` with a single padding character. -/
def padStart (s : String) (n : Nat) (c : Char) : String :=
  if n ≤ s.data.length then s
  else String.mk (List.replicate (n - s.data.length) c ++ s.data)

/-- `pluginIndexToHex`:
`index.toString(16).toUpperCase().padStart(2, '0')`. -/
def pluginIndexToHex (index : Nat) : String :=
  padStart (String.mk (toHexAux (index + 1) index)) 2 '0'

/-- `PluginEntry` (src/types/index.ts). -/
structure PluginEntry where
  index : String
  filename : String
  isLight : Option Bool := none
deriving DecidableEq

/-- `PluginList` (src/types/index.ts): both tables are JS `Map`s. -/
structure PluginList where
  plugins : List (String × PluginEntry)
  lightPlugins : List (String × PluginEntry)
  totalCount : Nat

/-- `resolvePluginIndex` (src/lib/formid/resolver.ts). -/
def resolvePluginIndex (formId : ExtractedFormId) (pluginList : PluginList) :
    Option String :=
  let hexIndex := pluginIndexToHex formId.pluginIndex
  if hexIndex = "FE" then none
  else (mapGet? pluginList.plugins hexIndex).map PluginEntry.filename

/-! ### Lookup store (src/lib/database/formid-db.ts) -/

/-- `FormIdDatabaseEntry` (src/types/index.ts). -/
structure FormIdDatabaseEntry where
  plugin : String
  formId : String
  entry : String
deriving DecidableEq

/-- `FormIdQuery` (src/lib/database/formid-db.ts). -/
structure FormIdQuery where
  formId : String
  plugin : String
deriving DecidableEq

/-- Behaviour of one game's open SQLite connection: maps the uppercased
6-digit record id and the plugin name (matched case-insensitively by the
query itself) to the first matching row, `Except.error` modelling a
statement that throws. -/
def StoreFun : Type := String → String → Except Unit (Option FormIdDatabaseEntry)

/-- The mutable state of `FormIdDatabaseManager`: the connection map keyed
by game, the behaviour of the open connections, and the bounded query
cache. -/
structure DbState where
  connections : List String
  store : String → String → String → Except Unit (Option FormIdDatabaseEntry)
  cache : List (String × Option FormIdDatabaseEntry)

/-- `cacheMaxSize` (private field, 1000). -/
def cacheMaxSize : Nat := 1000

/-- `hasDatabase`. -/
def hasDatabase (st : DbState) (game : String) : Bool :=
  st.connections.contains game

/-- `addToCache`: when the cache has reached its maximum size, delete the
first half of its keys in iteration (= insertion) order, then `Map.set` the
new entry. -/
def addToCache (cache : List (String × Option FormIdDatabaseEntry))
    (key : String) (value : Option FormIdDatabaseEntry) :
    List (String × Option FormIdDatabaseEntry) :=
  let cache1 :=
    if cacheMaxSize ≤ cache.length then
      ((cache.map Prod.fst).take (cacheMaxSize / 2)).foldl mapDelete cache
    else cache
  mapSet cache1 key value

/-- `loadDatabase`: `fsOpen` models `new Database(dbPath, readonly)`,
returning the connection's behaviour or `none` when the constructor throws.
On success the game's connection is replaced; on failure the state is
unchanged and an error result is returned. -/
def loadDatabase (st : DbState) (fsOpen : String → Option StoreFun)
    (dbPath game : String) : Bool × DbState :=
  match fsOpen dbPath with
  | none => (false, st)
  | some f =>
    (true,
      { st with
        connections :=
          if st.connections.contains game then st.connections
          else st.connections ++ [game]
        store := fun g fid pl => if g = game then f fid pl else st.store g fid pl })

/-- The cache key `` `${game}:${plugin}:${formId}` ``. -/
def cacheKeyOf (game plugin formId : String) : String :=
  game ++ ":" ++ plugin ++ ":" ++ formId

/-- `lookupFormId`.  The third component is ghost instrumentation: whether
the backing store was queried (true also when the query threw). -/
def lookupFormId (st : DbState) (formId plugin game : String) :
    Option FormIdDatabaseEntry × DbState × Bool :=
  if ¬ (st.connections.contains game) then (none, st, false)
  else
    let cacheKey := cacheKeyOf game plugin formId
    if mapHas st.cache cacheKey then
      ((mapGet? st.cache cacheKey).getD none, st, false)
    else
      match st.store game (toUpperCaseStr formId) plugin with
      | Except.error _ => (none, st, true)
      | Except.ok (some row) =>
        (some row, { st with cache := addToCache st.cache cacheKey (some row) }, true)
      | Except.ok none =>
        (none, { st with cache := addToCache st.cache cacheKey none }, true)

/-- The result-map key `` `${formId}:${plugin}` `` of the batch lookup. -/
def resultKeyOf (q : FormIdQuery) : String := q.formId ++ ":" ++ q.plugin

/-- First phase of `lookupFormIdBatch`: serve cached queries from the cache
(positive hits go into the result map) and collect the uncached ones, in
query order. -/
def batchPhase1 (cache : List (String × Option FormIdDatabaseEntry)) (game : String) :
    List FormIdQuery → List (String × FormIdDatabaseEntry) → List FormIdQuery →
    List (String × FormIdDatabaseEntry) × List FormIdQuery
  | [], results, uncached => (results, uncached)
  | q :: rest, results, uncached =>
    let cacheKey := cacheKeyOf game q.plugin q.formId
    if mapHas cache cacheKey then
      match (mapGet? cache cacheKey).getD none with
      | some e => batchPhase1 cache game rest (mapSet results (resultKeyOf q) e) uncached
      | none => batchPhase1 cache game rest results uncached
    else batchPhase1 cache game rest results (uncached ++ [q])

/-- Second phase of `lookupFormIdBatch`: query the store for each uncached
query, caching each outcome; a thrown query aborts the loop and the results
so far are returned (the surrounding `catch`).  The last component is the
ghost trace of queries issued to the store. -/
def batchLoop (st : DbState) (game : String) :
    List FormIdQuery → List (String × FormIdDatabaseEntry) →
    List (String × Option FormIdDatabaseEntry) → List FormIdQuery →
    List (String × FormIdDatabaseEntry) × List (String × Option FormIdDatabaseEntry) ×
      List FormIdQuery
  | [], results, cache, trace => (results, cache, trace)
  | q :: rest, results, cache, trace =>
    match st.store game (toUpperCaseStr q.formId) q.plugin with
    | Except.error _ => (results, cache, trace ++ [q])
    | Except.ok (some row) =>
      batchLoop st game rest (mapSet results (resultKeyOf q) row)
        (addToCache cache (cacheKeyOf game q.plugin q.formId) (some row)) (trace ++ [q])
    | Except.ok none =>
      batchLoop st game rest results
        (addToCache cache (cacheKeyOf game q.plugin q.formId) none) (trace ++ [q])

/-- `lookupFormIdBatch`.  The third component is the ghost trace of queries
issued to the backing store. -/
def lookupFormIdBatch (st : DbState) (queries : List FormIdQuery) (game : String) :
    List (String × FormIdDatabaseEntry) × DbState × List FormIdQuery :=
  if ¬ (st.connections.contains game) ∨ queries = [] then ([], st, [])
  else
    let p := batchPhase1 st.cache game queries [] []
    if p.2 = [] then (p.1, st, [])
    else
      let r := batchLoop st game p.2 p.1 st.cache []
      (r.1, { st with cache := r.2.1 }, r.2.2)

/-- `clearCache`. -/
def clearCache (st : DbState) : DbState := { st with cache := [] }

/-- `close`. -/
def closeAll (st : DbState) : DbState := { st with connections := [], cache := [] }

/-! ### Forensic analyzer (src/lib/formid/analyzer.ts) -/

/-- `FormIdMatch` (src/types/index.ts). -/
structure FormIdMatch where
  formId : String
  plugin : String
  description : Option String := none
  count : Nat
deriving DecidableEq

/-- `FormIdAnalysisResult` (src/types/index.ts); `matchesList` is the
source's `matches` field, renamed because `matches` is a Lean keyword. -/
structure FormIdAnalysisResult where
  matchesList : List FormIdMatch
  databaseAvailable : Bool
  generatorName : Option String := none
deriving DecidableEq

/-- `FormIdAnalysisConfig` (src/types/index.ts); `none` models an absent
optional field. -/
structure FormIdAnalysisConfig where
  game : String
  showFormIdValues : Option Bool := none
  formIdDatabasePaths : Option (List String) := none
  enabled : Option Bool := none

/-- JS truthiness of a `string | undefined` value (the empty string is
falsy). -/
def optTruthy : Option String → Bool
  | none => false
  | some s => decide (s ≠ "")

/-- Stable insertion of a match into a list sorted by strictly greater
count: models one step of `matches.sort((a, b) => b.count - a.count)`,
which is a stable descending sort. -/
def insertByCountDesc (m : FormIdMatch) : List FormIdMatch → List FormIdMatch
  | [] => [m]
  | x :: xs => if x.count < m.count then m :: x :: xs else x :: insertByCountDesc m xs

/-- `matches.sort((a, b) => b.count - a.count)`: stable, descending by
occurrence count. -/
def sortByCountDesc (l : List FormIdMatch) : List FormIdMatch :=
  l.foldr insertByCountDesc []

/-- The match-building loop shared by `analyzeFormIds` and
`analyzeFormIdsSync`: deduplicate by full identifier, resolve the plugin,
synthesize an `Unknown [XX]` label on resolution failure, and, when the
database is usable and a plugin name resolved (truthily), attach the
description of a successful lookup.  `useDb` is the database-lookup guard
of the caller (`databaseAvailable && config.showFormIdValues !== false` in
the async analyzer, `databaseAvailable` in the sync one). -/
def buildMatches (game : String) (pluginList : PluginList)
    (counts : List (String × Nat)) (useDb : Bool) :
    List ExtractedFormId → List String → List FormIdMatch → DbState →
    List FormIdMatch × DbState
  | [], _, acc, st => (acc, st)
  | e :: rest, processed, acc, st =>
    if processed.contains e.formId then
      buildMatches game pluginList counts useDb rest processed acc st
    else
      let processed' := processed ++ [e.formId]
      let pluginName := resolvePluginIndex e pluginList
      let count := (mapGet? counts e.formId).getD 1
      let m0 : FormIdMatch :=
        ⟨e.formId, pluginName.getD ("Unknown [" ++ pluginIndexToHex e.pluginIndex ++ "]"),
          none, count⟩
      if useDb ∧ optTruthy pluginName then
        let r := lookupFormId st e.recordId (pluginName.getD "") game
        let m := match r.1 with
          | some d => { m0 with description := some d.entry }
          | none => m0
        buildMatches game pluginList counts useDb rest processed' (acc ++ [m]) r.2.1
      else buildMatches game pluginList counts useDb rest processed' (acc ++ [m0]) st

/-- The database-availability step of `analyzeFormIds`: use an open
connection if present; otherwise, when descriptions were not disabled, try
to load the first candidate path (`dbPaths` is the resolved result of the
`findAvailableDatabases` filesystem search and `fsOpen` the database-open
oracle). -/
def dbAvailability (st : DbState) (config : FormIdAnalysisConfig)
    (dbPaths : List String) (fsOpen : String → Option StoreFun) : Bool × DbState :=
  let avail0 := hasDatabase st config.game
  if ¬ avail0 ∧ config.showFormIdValues ≠ some false then
    match dbPaths with
    | [] => (false, st)
    | p :: _ => if p = "" then (false, st) else loadDatabase st fsOpen p config.game
  else (avail0, st)

/-- `analyzeFormIds` (async): the filesystem collaborators are the explicit
oracle arguments `dbPaths` and `fsOpen`. -/
def analyzeFormIds (callstackLines : List String) (pluginList : PluginList)
    (config : FormIdAnalysisConfig) (st : DbState) (dbPaths : List String)
    (fsOpen : String → Option StoreFun) : FormIdAnalysisResult × DbState :=
  if config.enabled = some false then (⟨[], false, none⟩, st)
  else
    let extracted := extractFormIds callstackLines
    if extracted = [] then (⟨[], false, none⟩, st)
    else
      let counts := countFormIdOccurrences extracted
      let p := dbAvailability st config dbPaths fsOpen
      let useDb := p.1 ∧ config.showFormIdValues ≠ some false
      let r := buildMatches config.game pluginList counts useDb extracted [] [] p.2
      (⟨sortByCountDesc r.1, p.1, none⟩, r.2)

/-- `analyzeFormIdsSync`: availability is read from the already-loaded
manager state first and reported as is. -/
def analyzeFormIdsSync (callstackLines : List String) (pluginList : PluginList)
    (game : String) (generatorName : Option String) (st : DbState) :
    FormIdAnalysisResult × DbState :=
  let avail := hasDatabase st game
  let extracted := extractFormIds callstackLines
  if extracted = [] then (⟨[], avail, generatorName⟩, st)
  else
    let counts := countFormIdOccurrences extracted
    let r := buildMatches game pluginList counts avail extracted [] [] st
    (⟨sortByCountDesc r.1, avail, generatorName⟩, r.2)

/-! ### Log segmenter (src/lib/scan-log/index.ts) -/

/-- `content.split(/\r?\n/)`: split at every newline, also consuming a
carriage return immediately before it; a lone carriage return is an
ordinary character. -/
def splitLinesAux : List Char → List Char → List String
  | [], acc => [String.mk acc.reverse]
  | '\r' :: '\n' :: rest, acc => String.mk acc.reverse :: splitLinesAux rest []
  | '\n' :: rest, acc => String.mk acc.reverse :: splitLinesAux rest []
  | c :: rest, acc => splitLinesAux rest (c :: acc)

def splitLines (content : String) : List String := splitLinesAux content.data []

/-- JS `String.prototype.includes` on character lists. -/
def containsSub : List Char → List Char → Bool
  | [], pat => decide (pat = [])
  | h :: t, pat => decide ((h :: t).take pat.length = pat) || containsSub t pat

/-- `SegmentType` (src/lib/scan-log/index.ts). -/
inductive SegmentType where
  | header
  | callstack
  | registers
  | modules
  | plugins
  | memory
  | unknown
deriving DecidableEq

/-- `LogSegment` (src/lib/scan-log/index.ts). -/
structure LogSegment where
  type : SegmentType
  startLine : Nat
  endLine : Nat
  lines : List String
deriving DecidableEq

/-- The register-line test `/^[re][abcd]x\s*:/i.test(line)`. -/
def regLineTest (cs : List Char) : Bool :=
  match cs with
  | c0 :: c1 :: c2 :: rest =>
    (lowEq c0 'r' || lowEq c0 'e') &&
    (lowEq c1 'a' || lowEq c1 'b' || lowEq c1 'c' || lowEq c1 'd') &&
    lowEq c2 'x' &&
    (match rest.dropWhile isJsSpace with
     | ':' :: _ => true
     | _ => false)
  | _ => false

/-- The per-line classification of the segment-detection loop: the
case-insensitive substring and pattern checks, then the header window
`i < 20`, with everything else `unknown`. -/
def classifyLine (i : Nat) (line : String) : SegmentType :=
  let lower := line.data.map toLowerChar
  if containsSub lower "call stack".data || containsSub lower "callstack".data then
    SegmentType.callstack
  else if containsSub lower "register".data || regLineTest line.data then
    SegmentType.registers
  else if containsSub lower "modules:".data || containsSub lower "loaded modules".data then
    SegmentType.modules
  else if containsSub lower "plugins:".data || containsSub lower "plugin list".data then
    SegmentType.plugins
  else if i < 20 then SegmentType.header
  else SegmentType.unknown

/-- The segment-transition loop of `parseLogSegments`: a new segment opens
when the line's classification is non-unknown and differs from the open
segment's type (or no segment is open); otherwise the line is appended to
the open segment, and dropped when no segment is open yet. -/
def segLoop : List String → Nat → Option LogSegment → List LogSegment → List LogSegment
  | [], _, cur, segs =>
    segs ++ (match cur with
      | some c => [c]
      | none => [])
  | line :: rest, i, cur, segs =>
    let t := classifyLine i line
    if decide (t ≠ SegmentType.unknown) && (match cur with
        | none => true
        | some c => decide (t ≠ c.type)) then
      let segs' := match cur with
        | some c => segs ++ [{ c with endLine := i - 1 }]
        | none => segs
      segLoop rest (i + 1) (some ⟨t, i, i, [line]⟩) segs'
    else
      match cur with
      | some c =>
        segLoop rest (i + 1) (some { c with endLine := i, lines := c.lines ++ [line] }) segs
      | none => segLoop rest (i + 1) none segs

/-- `ParsedCrashLog`, restricted to the fields the segmentation contract is
about (the generator-name extraction of lines 106-112, which is independent
of segmentation, is not modelled). -/
structure ParsedCrashLog where
  game : String
  segments : List LogSegment
  totalLines : Nat

/-- `parseLogSegments` (src/lib/scan-log/index.ts). -/
def parseLogSegments (content : String) (game : String) : ParsedCrashLog :=
  let lines := splitLines content
  ⟨game, segLoop lines 0 none [], lines.length⟩

/-! ### Specification-side helpers, operation sequences, ghost values and
witness inputs -/

/-- JS `String.prototype.slice` with nonnegative in-range indices. -/
def jsSlice (s : String) (a b : Nat) : String :=
  String.mk ((s.data.drop a).take (b - a))

/-- A full cache used by the C5 witness: 1000 entries under one repeated
key (the hypotheses of the eviction theorem require only the length and
the freshness of the inserted key). -/
def witnessCache : List (String × Option FormIdDatabaseEntry) :=
  List.replicate cacheMaxSize ("a", none)

/-- The operations of the store manager, for stating state invariants:
`load` carries the outcome of opening the given path (the filesystem
oracle), the rest mirror the public methods. -/
inductive DbOp where
  | load (fsResult : Option StoreFun) (dbPath game : String)
  | lookupOne (formId plugin game : String)
  | lookupMany (queries : List FormIdQuery) (game : String)
  | clear
  | closeOp

def dbStep (st : DbState) : DbOp → DbState
  | DbOp.load fsResult dbPath game => (loadDatabase st (fun _ => fsResult) dbPath game).2
  | DbOp.lookupOne formId plugin game => (lookupFormId st formId plugin game).2.1
  | DbOp.lookupMany queries game => (lookupFormIdBatch st queries game).2.1
  | DbOp.clear => clearCache st
  | DbOp.closeOp => closeAll st

def dbRun (st : DbState) (ops : List DbOp) : DbState := ops.foldl dbStep st

/-- The initial manager state: no connections, empty cache. -/
def initDbState (store0 : String → String → String → Except Unit (Option FormIdDatabaseEntry)) :
    DbState :=
  ⟨[], store0, []⟩

/-- A manager state whose open fallout4 connection throws on every query
(e.g. a corrupt backing file), with an empty cache. -/
def throwingState : DbState :=
  ⟨["fallout4"], fun _ _ _ => Except.error (), []⟩

/-- Scenario C call-stack lines: the null identifier twice, an FF-prefixed
identifier once. -/
def scenarioCLines : List String :=
  ["FormID: 0x00000000", "FormID: 0x00000000", "FormID: 0xFF000000"]

/-- Scenario B call-stack lines: two FF-prefixed identifiers around one
with the unresolvable module index 0A. -/
def scenarioBLines : List String :=
  ["FormID: 0xFF123456", "FormID: 0x0A001234", "FormID: 0xFF000001"]

/-- What the cache of a manager state answers for a query: the cached
value on a hit (positive or negative), `none` on a miss. -/
def phase1Val (cache : List (String × Option FormIdDatabaseEntry)) (game : String)
    (q : FormIdQuery) : Option FormIdDatabaseEntry :=
  if mapHas cache (cacheKeyOf game q.plugin q.formId) then
    (mapGet? cache (cacheKeyOf game q.plugin q.formId)).getD none
  else none

/-- What the backing store answers for a query (none also models a thrown
query, which both lookup paths surface as not-found). -/
def storeValOf (st : DbState) (game : String) (q : FormIdQuery) :
    Option FormIdDatabaseEntry :=
  match st.store game (toUpperCaseStr q.formId) q.plugin with
  | Except.ok v => v
  | Except.error _ => none

/-- Concrete manager state for the C8 witness: one open connection, a
store resolving exactly (000ABC, A.esm), one cached positive entry. -/
def witnessBatchState : DbState :=
  ⟨["fallout4"],
   fun _ f p =>
     Except.ok (if f = "000ABC" ∧ p = "A.esm" then some ⟨"A.esm", "000ABC", "Desc"⟩ else none),
   [(cacheKeyOf "fallout4" "B.esm" "000DEF", some ⟨"B.esm", "000DEF", "Cached"⟩)]⟩

def witnessBatchQueries : List FormIdQuery :=
  [⟨"000abc", "A.esm"⟩, ⟨"000DEF", "B.esm"⟩]

/-- The document line at an index (the empty string past the end, matching
the loop's `lines[i] ?? ''`). -/
def lineAt (lines : List String) (i : Nat) : String := (lines.drop i).headD ""

/-- The segmentation contract, relative to the per-line classification:
starting at line `i` with `prevTy` the type of the segment just closed,
each segment starts exactly where the previous ended, begins at a line
whose classification is non-unknown and differs from the previous
segment's type, contains otherwise only lines whose classification is
unknown or equal to its own type, stores exactly the document lines of its
span, and the last segment ends at the last line. -/
def segChain (lines : List String) : Nat → Option SegmentType → List LogSegment → Prop
  | i, _, [] => i = lines.length
  | i, prevTy, s :: rest =>
      s.startLine = i ∧ i ≤ s.endLine ∧ s.endLine < lines.length ∧
      classifyLine i (lineAt lines i) = s.type ∧ s.type ≠ SegmentType.unknown ∧
      (∀ pt, prevTy = some pt → s.type ≠ pt) ∧
      (∀ m, i < m → m ≤ s.endLine →
        classifyLine m (lineAt lines m) = SegmentType.unknown ∨
        classifyLine m (lineAt lines m) = s.type) ∧
      s.lines = (lines.drop i).take (s.endLine + 1 - i) ∧
      segChain lines (s.endLine + 1) (some s.type) rest

/-! ### Character and map lemmas -/

theorem char_toNat_ofNat {n : Nat} (h : Nat.isValidChar n) :
    (Char.ofNat n).toNat = n := by
  unfold Char.ofNat
  rw [dif_pos h]
  rfl

theorem hexDigitUpper_hexVal {c : Char} (h : isHexDigit c = true) :
    hexDigitUpper (hexVal c) = toUpperChar c := by
  unfold isHexDigit at h
  rw [decide_eq_true_eq] at h
  rcases h with h | h | h
  · have hv : hexVal c = c.toNat - 48 := by unfold hexVal; rw [if_pos h]
    unfold hexDigitUpper toUpperChar
    rw [hv, if_pos (by omega), if_neg (by omega)]
    have : 48 + (c.toNat - 48) = c.toNat := by omega
    rw [this, Char.ofNat_toNat]
  · have hv : hexVal c = c.toNat - 55 := by
      unfold hexVal
      rw [if_neg (by omega), if_neg (by omega), if_pos h]
    unfold hexDigitUpper toUpperChar
    rw [hv, if_neg (by omega), if_neg (by omega)]
    have : 55 + (c.toNat - 55) = c.toNat := by omega
    rw [this, Char.ofNat_toNat]
  · have hv : hexVal c = c.toNat - 87 := by
      unfold hexVal
      rw [if_neg (by omega), if_pos h]
    unfold hexDigitUpper toUpperChar
    rw [hv, if_neg (by omega), if_pos (by omega)]
    congr 1
    omega

theorem hexVal_lt_16 {c : Char} (h : isHexDigit c = true) : hexVal c < 16 := by
  unfold isHexDigit at h
  rw [decide_eq_true_eq] at h
  unfold hexVal
  rcases h with h | h | h
  · rw [if_pos h]; omega
  · rw [if_neg (by omega), if_neg (by omega), if_pos h]; omega
  · rw [if_neg (by omega), if_pos h]; omega

theorem toUpperChar_idem (c : Char) : toUpperChar (toUpperChar c) = toUpperChar c := by
  unfold toUpperChar
  split
  · next h =>
    have hv : Nat.isValidChar (c.toNat - 32) := Or.inl (by omega)
    rw [if_neg]
    rw [char_toNat_ofNat hv]
    omega
  · rfl

theorem mapGet?_set_self {α β : Type} [DecidableEq α] (m : List (α × β)) (k : α) (v : β) :
    mapGet? (mapSet m k v) k = some v := by
  induction m with
  | nil => simp [mapSet, mapGet?]
  | cons hd t ih =>
    obtain ⟨a, b⟩ := hd
    unfold mapSet
    by_cases hak : a = k
    · rw [if_pos hak]; simp [mapGet?]
    · rw [if_neg hak]
      unfold mapGet?
      rw [if_neg hak]
      exact ih

theorem mapGet?_set_ne {α β : Type} [DecidableEq α] (m : List (α × β)) (k k' : α) (v : β)
    (h : k' ≠ k) : mapGet? (mapSet m k v) k' = mapGet? m k' := by
  induction m with
  | nil =>
    simp only [mapSet, mapGet?]
    rw [if_neg (fun hh => h hh.symm)]
  | cons hd t ih =>
    obtain ⟨a, b⟩ := hd
    unfold mapSet
    by_cases hak : a = k
    · rw [if_pos hak]
      unfold mapGet?
      rw [if_neg (fun hh => h hh.symm), if_neg (by rw [hak]; exact fun hh => h hh.symm)]
    · rw [if_neg hak]
      unfold mapGet?
      by_cases hak' : a = k'
      · rw [if_pos hak', if_pos hak']
      · rw [if_neg hak', if_neg hak']
        exact ih

theorem mapSet_length_le {α β : Type} [DecidableEq α] (m : List (α × β)) (k : α) (v : β) :
    (mapSet m k v).length ≤ m.length + 1 := by
  induction m with
  | nil => simp [mapSet]
  | cons hd t ih =>
    obtain ⟨a, b⟩ := hd
    unfold mapSet
    by_cases hak : a = k
    · rw [if_pos hak]; simp
    · rw [if_neg hak]
      simpa using ih

theorem mapSet_app_of_not_has {α β : Type} [DecidableEq α] (m : List (α × β)) (k : α) (v : β)
    (h : mapHas m k = false) : mapSet m k v = m ++ [(k, v)] := by
  induction m with
  | nil => simp [mapSet]
  | cons hd t ih =>
    obtain ⟨a, b⟩ := hd
    unfold mapHas mapGet? at h
    by_cases hak : a = k
    · rw [if_pos hak] at h; simp at h
    · rw [if_neg hak] at h
      unfold mapSet
      rw [if_neg hak]
      simp only [List.cons_append, List.cons.injEq, true_and]
      exact ih h

/-- Deleting, in order, the first `j` keys of an association list drops its
first `j` entries (the deletion of a key removes its first occurrence, which
is exactly the entry the key was read from). -/
theorem foldl_mapDelete_take {α β : Type} [DecidableEq α] :
    ∀ (j : Nat) (m : List (α × β)),
      ((m.map Prod.fst).take j).foldl mapDelete m = m.drop j
  | 0, m => by simp
  | _ + 1, [] => by simp
  | j + 1, (a, b) :: t => by
    simp only [List.map_cons, List.take_succ_cons, List.foldl_cons, List.drop_succ_cons]
    have hdel : mapDelete ((a, b) :: t) a = t := by
      unfold mapDelete
      rw [if_pos rfl]
    rw [hdel]
    exact foldl_mapDelete_take j t

/-! ### Claim C4: resolution of the FE light-module marker -/

set_option maxRecDepth 4000 in
theorem pluginIndexToHex_eq_FE_iff :
    ∀ n, n < 256 → ((pluginIndexToHex n = "FE") ↔ n = 254) := by decide

/-- C4: for every extracted identifier (module index below 256) and every
load-order table, a module index of 0xFE resolves to "not found" no matter
what either plugin table contains, and any other module index resolves to
the standard table's entry under the 2-hex-digit uppercase index, or "not
found" when absent. -/
theorem C4_resolve_fe_not_found (f : ExtractedFormId) (pl : PluginList)
    (h : f.pluginIndex < 256) :
    (f.pluginIndex = 254 → resolvePluginIndex f pl = none) ∧
    (f.pluginIndex ≠ 254 →
      resolvePluginIndex f pl =
        (mapGet? pl.plugins (pluginIndexToHex f.pluginIndex)).map PluginEntry.filename) := by
  constructor
  · intro h254
    unfold resolvePluginIndex
    rw [if_pos ((pluginIndexToHex_eq_FE_iff f.pluginIndex h).mpr h254)]
  · intro hne
    unfold resolvePluginIndex
    rw [if_neg (fun hfe => hne ((pluginIndexToHex_eq_FE_iff f.pluginIndex h).mp hfe))]

theorem C4_resolve_fe_not_found_witness :
    (254 < 256 ∧
      resolvePluginIndex ⟨"FE000001", 254, "000001", 0⟩
        ⟨[], [("FE:000", ⟨"FE:000", "Light.esl", some true⟩)], 1⟩ = none) ∧
    (10 < 256 ∧
      resolvePluginIndex ⟨"0A001234", 10, "001234", 0⟩ ⟨[], [], 0⟩ =
        (mapGet? ([] : List (String × PluginEntry)) (pluginIndexToHex 10)).map
          PluginEntry.filename) :=
  ⟨⟨by decide,
    (C4_resolve_fe_not_found ⟨"FE000001", 254, "000001", 0⟩
      ⟨[], [("FE:000", ⟨"FE:000", "Light.esl", some true⟩)], 1⟩ (by decide)).1 rfl⟩,
   ⟨by decide,
    (C4_resolve_fe_not_found ⟨"0A001234", 10, "001234", 0⟩ ⟨[], [], 0⟩ (by decide)).2
      (by decide)⟩⟩

/-! ### Claim C7: round trip between module index and its hex form -/

theorem toHexAux_small {fuel n : Nat} (hf : 0 < fuel) (hn : n < 16) :
    toHexAux fuel n = [hexDigitUpper n] := by
  cases fuel with
  | zero => omega
  | succ f =>
    unfold toHexAux
    rw [if_pos hn]

/-- C7: for every 8-hex-digit string (either case), converting the parsed
module index back to hex recovers the uppercased first two characters. -/
theorem C7_plugin_index_round_trip (x : String) (hlen : x.data.length = 8)
    (hhex : ∀ c ∈ x.data, isHexDigit c = true) :
    pluginIndexToHex (parsePluginIndex x) = toUpperCaseStr (jsSlice x 0 2) := by
  rcases hx : x.data with _ | ⟨c0, t⟩
  · rw [hx] at hlen; simp at hlen
  rcases ht : t with _ | ⟨c1, rest⟩
  · rw [hx, ht] at hlen; simp at hlen
  rw [ht] at hx
  have h0 : isHexDigit c0 = true := hhex c0 (by rw [hx]; exact List.mem_cons_self ..)
  have h1 : isHexDigit c1 = true := hhex c1 (by rw [hx]; simp)
  have ha := hexVal_lt_16 h0
  have hb := hexVal_lt_16 h1
  have hparse : parsePluginIndex x = 16 * hexVal c0 + hexVal c1 := by
    unfold parsePluginIndex
    rw [hx]
    simp [List.takeWhile, h0, h1]
  have hslice : toUpperCaseStr (jsSlice x 0 2) =
      String.mk [toUpperChar c0, toUpperChar c1] := by
    unfold jsSlice toUpperCaseStr
    rw [hx]
    simp
  rw [hparse, hslice, ← hexDigitUpper_hexVal h0, ← hexDigitUpper_hexVal h1]
  unfold pluginIndexToHex
  by_cases haz : hexVal c0 = 0
  · rw [haz]
    simp only [Nat.mul_zero, Nat.zero_add]
    rw [toHexAux_small (by omega) hb]
    unfold padStart
    rw [if_neg (by simp)]
    have h00 : hexDigitUpper 0 = '0' := by decide
    rw [h00]
    simp [List.replicate]
  · have hdiv : (16 * hexVal c0 + hexVal c1) / 16 = hexVal c0 := by omega
    have hmod : (16 * hexVal c0 + hexVal c1) % 16 = hexVal c1 := by omega
    rw [show 16 * hexVal c0 + hexVal c1 + 1 = (16 * hexVal c0 + hexVal c1) + 1 from rfl]
    rw [toHexAux]
    rw [if_neg (by omega), hdiv, hmod,
      toHexAux_small (by omega) ha]
    unfold padStart
    rw [if_pos (by simp)]
    simp

theorem C7_plugin_index_round_trip_witness :
    ("0a001234".data.length = 8 ∧ (∀ c ∈ "0a001234".data, isHexDigit c = true)) ∧
    pluginIndexToHex (parsePluginIndex "0a001234") = toUpperCaseStr (jsSlice "0a001234" 0 2) :=
  ⟨⟨by decide, by decide⟩,
   C7_plugin_index_round_trip "0a001234" (by decide) (by decide)⟩

/-! ### Claim C5: cache eviction by batch-halving -/

theorem mapGet?_eq_none_iff {α β : Type} [DecidableEq α] (m : List (α × β)) (k : α) :
    mapGet? m k = none ↔ ∀ p ∈ m, p.1 ≠ k := by
  induction m with
  | nil => simp [mapGet?]
  | cons hd t ih =>
    obtain ⟨a, b⟩ := hd
    unfold mapGet?
    by_cases hak : a = k
    · rw [if_pos hak]
      simp [hak]
    · rw [if_neg hak]
      simp [ih, hak]

theorem mapHas_eq_false_iff {α β : Type} [DecidableEq α] (m : List (α × β)) (k : α) :
    mapHas m k = false ↔ mapGet? m k = none := by
  unfold mapHas
  cases mapGet? m k <;> simp

theorem mapHas_drop_false {α β : Type} [DecidableEq α] (m : List (α × β)) (k : α) (j : Nat)
    (h : mapHas m k = false) : mapHas (m.drop j) k = false := by
  rw [mapHas_eq_false_iff, mapGet?_eq_none_iff] at h ⊢
  exact fun p hp => h p (List.mem_of_mem_drop hp)

/-- C5: when the cache is full (a write of a fresh key would exceed the
maximum size), `addToCache` evicts exactly the oldest half of the entries
in insertion order, the newer half survives, and the new entry is appended
after it. -/
theorem C5_addToCache_evicts_oldest_half
    (cache : List (String × Option FormIdDatabaseEntry)) (key : String)
    (value : Option FormIdDatabaseEntry)
    (hfull : cache.length = cacheMaxSize) (hnew : mapHas cache key = false) :
    addToCache cache key value = cache.drop (cacheMaxSize / 2) ++ [(key, value)] := by
  unfold addToCache
  rw [if_pos (by rw [hfull])]
  rw [foldl_mapDelete_take]
  exact mapSet_app_of_not_has _ _ _ (mapHas_drop_false cache key _ hnew)

theorem mapGet?_cons {α β : Type} [DecidableEq α] (a : α) (b : β) (t : List (α × β)) (k : α) :
    mapGet? ((a, b) :: t) k = if a = k then some b else mapGet? t k := rfl

theorem witnessCache_not_has : ∀ n, mapHas (List.replicate n (("a" : String),
    (none : Option FormIdDatabaseEntry))) "b" = false := by
  intro n
  induction n with
  | zero => decide
  | succ m ih =>
    unfold mapHas at ih ⊢
    rw [List.replicate_succ, mapGet?_cons, if_neg (by decide)]
    exact ih

theorem C5_addToCache_evicts_oldest_half_witness :
    (witnessCache.length = cacheMaxSize ∧ mapHas witnessCache "b" = false) ∧
    addToCache witnessCache "b" none =
      witnessCache.drop (cacheMaxSize / 2) ++ [("b", none)] :=
  ⟨⟨List.length_replicate .., witnessCache_not_has cacheMaxSize⟩,
   C5_addToCache_evicts_oldest_half witnessCache "b" none (List.length_replicate ..)
     (witnessCache_not_has cacheMaxSize)⟩

/-! ### Claim C9: the cache never exceeds its maximum size -/

theorem addToCache_length_le (cache : List (String × Option FormIdDatabaseEntry))
    (key : String) (value : Option FormIdDatabaseEntry)
    (h : cache.length ≤ cacheMaxSize) :
    (addToCache cache key value).length ≤ cacheMaxSize := by
  unfold addToCache
  by_cases hfull : cacheMaxSize ≤ cache.length
  · rw [if_pos hfull]
    rw [foldl_mapDelete_take]
    calc (mapSet (cache.drop (cacheMaxSize / 2)) key value).length
        ≤ (cache.drop (cacheMaxSize / 2)).length + 1 := mapSet_length_le ..
      _ ≤ cacheMaxSize := by
          rw [List.length_drop]
          have h2 : cacheMaxSize = 1000 := rfl
          omega
  · rw [if_neg hfull]
    calc (mapSet cache key value).length ≤ cache.length + 1 := mapSet_length_le ..
      _ ≤ cacheMaxSize := by omega

theorem batchLoop_cache_length_le (st : DbState) (game : String)
    (qs : List FormIdQuery) (results : List (String × FormIdDatabaseEntry))
    (cache : List (String × Option FormIdDatabaseEntry)) (trace : List FormIdQuery)
    (h : cache.length ≤ cacheMaxSize) :
    (batchLoop st game qs results cache trace).2.1.length ≤ cacheMaxSize := by
  induction qs generalizing results cache trace with
  | nil => exact h
  | cons q rest ih =>
    unfold batchLoop
    match st.store game (toUpperCaseStr q.formId) q.plugin with
    | Except.error _ => exact h
    | Except.ok (some row) => exact ih _ _ _ (addToCache_length_le _ _ _ h)
    | Except.ok none => exact ih _ _ _ (addToCache_length_le _ _ _ h)

theorem lookupFormId_cache_length_le (st : DbState) (formId plugin game : String)
    (h : st.cache.length ≤ cacheMaxSize) :
    (lookupFormId st formId plugin game).2.1.cache.length ≤ cacheMaxSize := by
  unfold lookupFormId
  by_cases hc : ¬ (st.connections.contains game)
  · rw [if_pos hc]; exact h
  · rw [if_neg hc]
    by_cases hhit : mapHas st.cache (cacheKeyOf game plugin formId)
    · rw [if_pos hhit]; exact h
    · rw [if_neg hhit]
      match st.store game (toUpperCaseStr formId) plugin with
      | Except.error _ => exact h
      | Except.ok (some row) => exact addToCache_length_le _ _ _ h
      | Except.ok none => exact addToCache_length_le _ _ _ h

theorem lookupFormIdBatch_cache_length_le (st : DbState) (queries : List FormIdQuery)
    (game : String) (h : st.cache.length ≤ cacheMaxSize) :
    (lookupFormIdBatch st queries game).2.1.cache.length ≤ cacheMaxSize := by
  unfold lookupFormIdBatch
  by_cases hc : ¬ (st.connections.contains game) ∨ queries = []
  · rw [if_pos hc]; exact h
  · rw [if_neg hc]
    by_cases hunc : (batchPhase1 st.cache game queries [] []).2 = []
    · rw [if_pos hunc]; exact h
    · rw [if_neg hunc]
      exact batchLoop_cache_length_le st game _ _ _ _ h

theorem dbStep_cache_length_le (st : DbState) (op : DbOp)
    (h : st.cache.length ≤ cacheMaxSize) :
    (dbStep st op).cache.length ≤ cacheMaxSize := by
  match op with
  | DbOp.load fsResult dbPath game =>
    unfold dbStep loadDatabase
    match fsResult with
    | none => exact h
    | some f => exact h
  | DbOp.lookupOne formId plugin game => exact lookupFormId_cache_length_le st _ _ _ h
  | DbOp.lookupMany queries game => exact lookupFormIdBatch_cache_length_le st _ _ h
  | DbOp.clear => simp [dbStep, clearCache]
  | DbOp.closeOp => simp [dbStep, closeAll]

/-- C9: the query cache never exceeds the fixed maximum (1000): after any
sequence of loadDatabase, lookupFormId, lookupFormIdBatch, clearCache and
close operations from the initial manager state, at most `cacheMaxSize`
entries are cached. -/
theorem C9_cache_never_exceeds_max
    (store0 : String → String → String → Except Unit (Option FormIdDatabaseEntry))
    (ops : List DbOp) :
    (dbRun (initDbState store0) ops).cache.length ≤ cacheMaxSize ∧ cacheMaxSize = 1000 := by
  constructor
  · have main : ∀ (l : List DbOp) (st : DbState), st.cache.length ≤ cacheMaxSize →
        (dbRun st l).cache.length ≤ cacheMaxSize := by
      intro l
      induction l with
      | nil => exact fun st h => h
      | cons op rest ih =>
        intro st h
        exact ih (dbStep st op) (dbStep_cache_length_le st op h)
    exact main ops (initDbState store0) (by simp [initDbState])
  · rfl

/-! ### Claim C1: a throwing lookup and the query cache -/

/-- C1 counterexample: with an open connection whose every query throws,
`lookupFormId` does return the not-found result, but it records no entry
in the query cache (the cache stays empty), and a repeated lookup queries
the store again instead of being served from the cache — refuting the
claimed negative caching of thrown lookups. -/
theorem C1_counterexample :
    (lookupFormId throwingState "000ABC" "Test.esm" "fallout4").1 = none ∧
    (lookupFormId throwingState "000ABC" "Test.esm" "fallout4").2.1.cache = [] ∧
    mapHas (lookupFormId throwingState "000ABC" "Test.esm" "fallout4").2.1.cache
      (cacheKeyOf "fallout4" "Test.esm" "000ABC") = false ∧
    (lookupFormId (lookupFormId throwingState "000ABC" "Test.esm" "fallout4").2.1
      "000ABC" "Test.esm" "fallout4").2.2 = true :=
  ⟨rfl, rfl, rfl, rfl⟩

/-- C1 (amended): a lookup that throws inside the store layer is caught and
returns the not-found result, but no cache entry (negative or otherwise) is
recorded — the state is returned unchanged, and the ghost flag records that
the store was queried; a repeated lookup therefore re-queries the store. -/
theorem C1_throw_returns_none_uncached (st : DbState) (formId plugin game : String)
    (hconn : st.connections.contains game = true)
    (hmiss : mapHas st.cache (cacheKeyOf game plugin formId) = false)
    (hthrow : st.store game (toUpperCaseStr formId) plugin = Except.error ()) :
    lookupFormId st formId plugin game = (none, st, true) := by
  unfold lookupFormId
  rw [if_neg (by simpa using hconn)]
  simp only []
  rw [if_neg (by simp [hmiss]), hthrow]

theorem C1_throw_returns_none_uncached_witness :
    (throwingState.connections.contains "fallout4" = true ∧
      mapHas throwingState.cache (cacheKeyOf "fallout4" "Test.esm" "000ABC") = false ∧
      throwingState.store "fallout4" (toUpperCaseStr "000ABC") "Test.esm" =
        Except.error ()) ∧
    lookupFormId throwingState "000ABC" "Test.esm" "fallout4" = (none, throwingState, true) :=
  ⟨⟨rfl, rfl, rfl⟩,
   C1_throw_returns_none_uncached throwingState "000ABC" "Test.esm" "fallout4" rfl rfl rfl⟩

/-! ### Claim C10: database availability on zero extractions -/

/-- C10: with analysis enabled and no identifier extracted, the async
analyzer reports `databaseAvailable = false` unconditionally — even when a
connection for the game is open — while the sync analyzer reports the
actual connection availability. -/
theorem C10_zero_extraction_availability
    (lines : List String) (pl : PluginList) (config : FormIdAnalysisConfig)
    (st : DbState) (dbPaths : List String) (fsOpen : String → Option StoreFun)
    (game : String) (gen : Option String)
    (henabled : config.enabled ≠ some false)
    (hempty : extractFormIds lines = []) :
    (analyzeFormIds lines pl config st dbPaths fsOpen).1.databaseAvailable = false ∧
    (analyzeFormIdsSync lines pl game gen st).1.databaseAvailable = hasDatabase st game := by
  constructor
  · unfold analyzeFormIds
    rw [if_neg henabled]
    simp only [hempty]
    simp
  · unfold analyzeFormIdsSync
    simp only [hempty]
    simp

theorem C10_zero_extraction_availability_witness :
    ((⟨"fallout4", none, none, none⟩ : FormIdAnalysisConfig).enabled ≠ some false ∧
      extractFormIds [] = []) ∧
    (analyzeFormIds [] ⟨[], [], 0⟩ ⟨"fallout4", none, none, none⟩ throwingState []
        (fun _ => none)).1.databaseAvailable = false ∧
    (analyzeFormIdsSync [] ⟨[], [], 0⟩ "fallout4" none
        throwingState).1.databaseAvailable = hasDatabase throwingState "fallout4" :=
  ⟨⟨by decide, rfl⟩,
   C10_zero_extraction_availability [] ⟨[], [], 0⟩ ⟨"fallout4", none, none, none⟩
     throwingState [] (fun _ => none) "fallout4" none (by decide) rfl⟩

/-! ### Claim C2: the FF filter and the preserved null identifier -/

theorem toUpperCaseStr_idem (s : String) :
    toUpperCaseStr (toUpperCaseStr s) = toUpperCaseStr s := by
  unfold toUpperCaseStr
  simp only [List.map_map]
  congr 1
  exact List.map_congr_left fun c _ => toUpperChar_idem c

theorem mem_extractLine_no_ff {e : ExtractedFormId} {i : Nat} {line : String}
    (h : e ∈ extractLine i line) : e.formId.data.take 2 ≠ ['F', 'F'] := by
  unfold extractLine at h
  split at h
  · simp at h
  · rw [List.mem_filterMap] at h
    obtain ⟨m, _, hm⟩ := h
    simp only [] at hm
    split at hm
    · exact absurd hm (by simp)
    · split at hm
      · exact absurd hm (by simp)
      · next hflt =>
        obtain rfl : (⟨toUpperCaseStr m, parsePluginIndex (toUpperCaseStr m),
            parseRecordId (toUpperCaseStr m), i⟩ : ExtractedFormId) = e := by
          exact Option.some.inj hm
        intro htake
        apply hflt
        unfold shouldFilterFormId
        rw [toUpperCaseStr_idem]
        simpa using htake

theorem mem_extractFormIdsAux_no_ff {e : ExtractedFormId} :
    ∀ {i : Nat} {lines : List String}, e ∈ extractFormIdsAux i lines →
      e.formId.data.take 2 ≠ ['F', 'F'] := by
  intro i lines
  induction lines generalizing i with
  | nil => intro h; simp [extractFormIdsAux] at h
  | cons line rest ih =>
    intro h
    unfold extractFormIdsAux at h
    rcases List.mem_append.mp h with h1 | h2
    · exact mem_extractLine_no_ff h1
    · exact ih h2

/-- Equation lemma for the cons case of the match-building loop. -/
theorem buildMatches_cons (game : String) (pluginList : PluginList)
    (counts : List (String × Nat)) (useDb : Bool) (e : ExtractedFormId)
    (rest : List ExtractedFormId) (processed : List String) (acc : List FormIdMatch)
    (st : DbState) :
    buildMatches game pluginList counts useDb (e :: rest) processed acc st =
      if processed.contains e.formId then
        buildMatches game pluginList counts useDb rest processed acc st
      else
        let processed' := processed ++ [e.formId]
        let pluginName := resolvePluginIndex e pluginList
        let count := (mapGet? counts e.formId).getD 1
        let m0 : FormIdMatch :=
          ⟨e.formId, pluginName.getD ("Unknown [" ++ pluginIndexToHex e.pluginIndex ++ "]"),
            none, count⟩
        if useDb ∧ optTruthy pluginName then
          let r := lookupFormId st e.recordId (pluginName.getD "") game
          let m := match r.1 with
            | some d => { m0 with description := some d.entry }
            | none => m0
          buildMatches game pluginList counts useDb rest processed' (acc ++ [m]) r.2.1
        else buildMatches game pluginList counts useDb rest processed' (acc ++ [m0]) st := rfl

theorem buildMatches_nil (game : String) (pluginList : PluginList)
    (counts : List (String × Nat)) (useDb : Bool) (processed : List String)
    (acc : List FormIdMatch) (st : DbState) :
    buildMatches game pluginList counts useDb [] processed acc st = (acc, st) := rfl

theorem sortByCountDesc_singleton (m : FormIdMatch) : sortByCountDesc [m] = [m] := rfl

theorem buildMatches_scenarioC (game : String) (pl : PluginList) (useDb : Bool)
    (st : DbState) :
    ∃ P D st', buildMatches game pl [("00000000", 2)] useDb
      [⟨"00000000", 0, "000000", 0⟩, ⟨"00000000", 0, "000000", 1⟩] [] [] st =
      ([⟨"00000000", P, D, 2⟩], st') := by
  have hc : (mapGet? [("00000000", 2)] "00000000").getD 1 = 2 := by decide
  rw [buildMatches_cons, if_neg (by decide)]
  simp only []
  by_cases hdb : useDb = true ∧
      optTruthy (resolvePluginIndex ⟨"00000000", 0, "000000", 0⟩ pl) = true
  · rw [if_pos hdb]
    rcases hr : (lookupFormId st "000000"
        ((resolvePluginIndex ⟨"00000000", 0, "000000", 0⟩ pl).getD "") game).1 with _ | d
    · rw [buildMatches_cons, if_pos (by decide), buildMatches_nil]
      exact ⟨_, none, _, by simp [hc]; exact ⟨rfl, rfl⟩⟩
    · rw [buildMatches_cons, if_pos (by decide), buildMatches_nil]
      exact ⟨_, some d.entry, _, by simp [hc]; exact ⟨rfl, rfl⟩⟩
  · rw [if_neg hdb]
    rw [buildMatches_cons, if_pos (by decide), buildMatches_nil]
    exact ⟨_, none, st, by simp [hc]; exact rfl⟩

/-- C2: extraction never returns an FF-prefixed identifier; the filter
preserves the all-zero identifier; and on the Scenario C call stack the
sync analyzer produces exactly one match, for 00000000, with count 2 (and
hence none for the FF-prefixed identifier). -/
theorem C2_ff_filtered_null_preserved (lines : List String) (e : ExtractedFormId)
    (hmem : e ∈ extractFormIds lines) :
    e.formId.data.take 2 ≠ ['F', 'F'] ∧
    shouldFilterFormId "00000000" = false ∧
    ∀ (pl : PluginList) (st : DbState) (game : String) (gen : Option String),
      ∃ P D, (analyzeFormIdsSync scenarioCLines pl game gen st).1.matchesList =
        [⟨"00000000", P, D, 2⟩] := by
  refine ⟨mem_extractFormIdsAux_no_ff hmem, by decide, ?_⟩
  intro pl st game gen
  have hex : extractFormIds scenarioCLines =
      [⟨"00000000", 0, "000000", 0⟩, ⟨"00000000", 0, "000000", 1⟩] := by decide
  have hcounts : countFormIdOccurrences
      [(⟨"00000000", 0, "000000", 0⟩ : ExtractedFormId), ⟨"00000000", 0, "000000", 1⟩] =
      [("00000000", 2)] := by decide
  obtain ⟨P, D, st', hbm⟩ :=
    buildMatches_scenarioC game pl (hasDatabase st game) st
  refine ⟨P, D, ?_⟩
  unfold analyzeFormIdsSync
  rw [hex]
  rw [if_neg (by decide)]
  simp only [hcounts, hbm, sortByCountDesc_singleton]

theorem C2_ff_filtered_null_preserved_witness :
    ((⟨"0A001234", 10, "001234", 1⟩ : ExtractedFormId) ∈ extractFormIds scenarioBLines ∧
      (⟨"0A001234", 10, "001234", 1⟩ : ExtractedFormId).formId.data.take 2 ≠ ['F', 'F']) ∧
    shouldFilterFormId "00000000" = false :=
  have h := C2_ff_filtered_null_preserved scenarioBLines ⟨"0A001234", 10, "001234", 1⟩
    (by decide)
  ⟨⟨by decide, h.1⟩, h.2.1⟩

/-! ### Claim C3: the synthetic Unknown label -/

theorem buildMatches_scenarioB (game : String) (pl : PluginList) (useDb : Bool)
    (st : DbState) (hno0A : mapGet? pl.plugins "0A" = none) :
    buildMatches game pl [("0A001234", 1)] useDb [⟨"0A001234", 10, "001234", 1⟩] [] [] st =
      ([⟨"0A001234", "Unknown [0A]", none, 1⟩], st) := by
  have hres : resolvePluginIndex ⟨"0A001234", 10, "001234", 1⟩ pl = none := by
    unfold resolvePluginIndex
    rw [if_neg (by decide)]
    simp only []
    rw [show pluginIndexToHex (10 : Nat) = "0A" from by decide, hno0A]
    rfl
  rw [buildMatches_cons, if_neg (by decide)]
  simp only [hres]
  rw [if_neg (by simp [optTruthy])]
  rw [buildMatches_nil]
  have h1 : (Option.getD (none : Option String)
      ("Unknown [" ++ pluginIndexToHex (10 : Nat) ++ "]")) = "Unknown [0A]" := by decide
  have h2 : (mapGet? [("0A001234", 1)] "0A001234").getD 1 = 1 := by decide
  simp [h1, h2]

/-- C3: on the Scenario B call stack, with no load-order entry under index
0A, the analyzer produces exactly one match, its plugin field is the
synthetic label "Unknown [0A]" and its description field is absent. -/
theorem C3_unknown_label (pl : PluginList) (config : FormIdAnalysisConfig)
    (st : DbState) (dbPaths : List String) (fsOpen : String → Option StoreFun)
    (henabled : config.enabled ≠ some false)
    (hno0A : mapGet? pl.plugins "0A" = none) :
    (analyzeFormIds scenarioBLines pl config st dbPaths fsOpen).1.matchesList =
      [⟨"0A001234", "Unknown [0A]", none, 1⟩] := by
  have hex : extractFormIds scenarioBLines = [⟨"0A001234", 10, "001234", 1⟩] := by decide
  have hcounts : countFormIdOccurrences [(⟨"0A001234", 10, "001234", 1⟩ : ExtractedFormId)] =
      [("0A001234", 1)] := by decide
  unfold analyzeFormIds
  rw [if_neg henabled]
  rw [hex]
  rw [if_neg (by decide)]
  simp only [hcounts]
  rw [buildMatches_scenarioB _ _ _ _ hno0A, sortByCountDesc_singleton]

theorem C3_unknown_label_witness :
    ((⟨"fallout4", none, none, none⟩ : FormIdAnalysisConfig).enabled ≠ some false ∧
      mapGet? ([] : List (String × PluginEntry)) "0A" = none) ∧
    (analyzeFormIds scenarioBLines ⟨[], [], 0⟩ ⟨"fallout4", none, none, none⟩
        (initDbState (fun _ _ _ => Except.ok none)) [] (fun _ => none)).1.matchesList =
      [⟨"0A001234", "Unknown [0A]", none, 1⟩] :=
  ⟨⟨by decide, rfl⟩,
   C3_unknown_label ⟨[], [], 0⟩ ⟨"fallout4", none, none, none⟩
     (initDbState (fun _ _ _ => Except.ok none)) [] (fun _ => none) (by decide) rfl⟩

/-! ### Claim C8: batch lookup refines single lookup -/

theorem resultKeyOf_inj {q q' : FormIdQuery} (h6 : q.formId.data.length = 6)
    (h6' : q'.formId.data.length = 6) (hk : resultKeyOf q = resultKeyOf q') :
    q.formId = q'.formId ∧ q.plugin = q'.plugin := by
  unfold resultKeyOf at hk
  have hd := congrArg String.data hk
  rw [String.data_append, String.data_append, String.data_append,
    String.data_append] at hd
  have hlen : (q.formId.data ++ ":".data).length = (q'.formId.data ++ ":".data).length := by
    simp [h6, h6']
  obtain ⟨h1, h2⟩ := List.append_inj hd hlen
  obtain ⟨h3, _⟩ := List.append_inj h1 (by simp [h6, h6'])
  exact ⟨String.ext h3, String.ext h2⟩

theorem batchPhase1_nil (cache : List (String × Option FormIdDatabaseEntry))
    (game : String) (res : List (String × FormIdDatabaseEntry)) (unc : List FormIdQuery) :
    batchPhase1 cache game [] res unc = (res, unc) := rfl

theorem batchPhase1_cons (cache : List (String × Option FormIdDatabaseEntry))
    (game : String) (q : FormIdQuery) (rest : List FormIdQuery)
    (res : List (String × FormIdDatabaseEntry)) (unc : List FormIdQuery) :
    batchPhase1 cache game (q :: rest) res unc =
      if mapHas cache (cacheKeyOf game q.plugin q.formId) then
        match (mapGet? cache (cacheKeyOf game q.plugin q.formId)).getD none with
        | some e => batchPhase1 cache game rest (mapSet res (resultKeyOf q) e) unc
        | none => batchPhase1 cache game rest res unc
      else batchPhase1 cache game rest res (unc ++ [q]) := rfl

theorem batchLoop_nil (st : DbState) (game : String)
    (res : List (String × FormIdDatabaseEntry))
    (cache : List (String × Option FormIdDatabaseEntry)) (tr : List FormIdQuery) :
    batchLoop st game [] res cache tr = (res, cache, tr) := rfl

theorem batchLoop_cons (st : DbState) (game : String) (q : FormIdQuery)
    (rest : List FormIdQuery) (res : List (String × FormIdDatabaseEntry))
    (cache : List (String × Option FormIdDatabaseEntry)) (tr : List FormIdQuery) :
    batchLoop st game (q :: rest) res cache tr =
      match st.store game (toUpperCaseStr q.formId) q.plugin with
      | Except.error _ => (res, cache, tr ++ [q])
      | Except.ok (some row) =>
        batchLoop st game rest (mapSet res (resultKeyOf q) row)
          (addToCache cache (cacheKeyOf game q.plugin q.formId) (some row)) (tr ++ [q])
      | Except.ok none =>
        batchLoop st game rest res
          (addToCache cache (cacheKeyOf game q.plugin q.formId) none) (tr ++ [q]) := rfl

/-- Every query in the collected uncached list either came in with the
accumulator or is a cache-missing member of the processed queries. -/
theorem batchPhase1_unc_mem (cache : List (String × Option FormIdDatabaseEntry))
    (game : String) :
    ∀ (qs : List FormIdQuery) (res : List (String × FormIdDatabaseEntry))
      (unc : List FormIdQuery) (q' : FormIdQuery),
      q' ∈ (batchPhase1 cache game qs res unc).2 →
      q' ∈ unc ∨ (q' ∈ qs ∧ mapHas cache (cacheKeyOf game q'.plugin q'.formId) = false) := by
  intro qs
  induction qs with
  | nil =>
    intro res unc q' h
    rw [batchPhase1_nil] at h
    exact Or.inl h
  | cons q0 rest ih =>
    intro res unc q' h
    rw [batchPhase1_cons] at h
    by_cases hh : mapHas cache (cacheKeyOf game q0.plugin q0.formId) = true
    · rw [if_pos hh] at h
      rcases hv : (mapGet? cache (cacheKeyOf game q0.plugin q0.formId)).getD none with _ | e0
      · rw [hv] at h
        rcases ih _ _ _ h with h1 | ⟨h2, h3⟩
        · exact Or.inl h1
        · exact Or.inr ⟨List.mem_cons_of_mem _ h2, h3⟩
      · rw [hv] at h
        rcases ih _ _ _ h with h1 | ⟨h2, h3⟩
        · exact Or.inl h1
        · exact Or.inr ⟨List.mem_cons_of_mem _ h2, h3⟩
    · rw [if_neg hh] at h
      rcases ih _ _ _ h with h1 | ⟨h2, h3⟩
      · rcases List.mem_append.mp h1 with h4 | h5
        · exact Or.inl h4
        · rw [List.mem_singleton] at h5
          subst h5
          exact Or.inr ⟨List.mem_cons_self .., Bool.not_eq_true _ ▸ hh⟩
      · exact Or.inr ⟨List.mem_cons_of_mem _ h2, h3⟩

/-- The accumulator of uncached queries only grows. -/
theorem batchPhase1_unc_mono (cache : List (String × Option FormIdDatabaseEntry))
    (game : String) :
    ∀ (qs : List FormIdQuery) (res : List (String × FormIdDatabaseEntry))
      (unc : List FormIdQuery) (q : FormIdQuery),
      q ∈ unc → q ∈ (batchPhase1 cache game qs res unc).2 := by
  intro qs
  induction qs with
  | nil =>
    intro res unc q h
    rw [batchPhase1_nil]
    exact h
  | cons q0 rest ih =>
    intro res unc q h
    rw [batchPhase1_cons]
    by_cases hh : mapHas cache (cacheKeyOf game q0.plugin q0.formId) = true
    · rw [if_pos hh]
      rcases hv : (mapGet? cache (cacheKeyOf game q0.plugin q0.formId)).getD none with _ | e0
      · exact ih _ _ _ h
      · exact ih _ _ _ h
    · rw [if_neg hh]
      exact ih _ _ _ (List.mem_append.mpr (Or.inl h))

/-- A cache-missing query among the processed ones ends up uncached. -/
theorem batchPhase1_unc_complete (cache : List (String × Option FormIdDatabaseEntry))
    (game : String) :
    ∀ (qs : List FormIdQuery) (res : List (String × FormIdDatabaseEntry))
      (unc : List FormIdQuery) (q : FormIdQuery),
      q ∈ qs → mapHas cache (cacheKeyOf game q.plugin q.formId) = false →
      q ∈ (batchPhase1 cache game qs res unc).2 := by
  intro qs
  induction qs with
  | nil =>
    intro res unc q h
    exact absurd h (List.not_mem_nil q)
  | cons q0 rest ih =>
    intro res unc q hmem hmiss
    rw [batchPhase1_cons]
    rcases List.mem_cons.mp hmem with rfl | htail
    · rw [if_neg (by simp [hmiss])]
      exact batchPhase1_unc_mono cache game rest _ _ q
        (List.mem_append.mpr (Or.inr (List.mem_singleton.mpr rfl)))
    · by_cases hh : mapHas cache (cacheKeyOf game q0.plugin q0.formId) = true
      · rw [if_pos hh]
        rcases hv : (mapGet? cache (cacheKeyOf game q0.plugin q0.formId)).getD none with _ | e0
        · exact ih _ _ _ htail hmiss
        · exact ih _ _ _ htail hmiss
      · rw [if_neg hh]
        exact ih _ _ _ htail hmiss

/-- What the result map of phase 1 answers at a query's key: the cached
positive value of the latest processed query with that key, else whatever
the accumulator answered. -/
theorem batchPhase1_get (cache : List (String × Option FormIdDatabaseEntry)) (game : String) :
    ∀ (qs : List FormIdQuery) (res : List (String × FormIdDatabaseEntry))
      (unc : List FormIdQuery),
      (∀ q' ∈ qs, q'.formId.data.length = 6) →
      ∀ (q : FormIdQuery), q.formId.data.length = 6 →
      mapGet? (batchPhase1 cache game qs res unc).1 (resultKeyOf q) =
        if qs.any (fun q' => decide (resultKeyOf q' = resultKeyOf q) &&
            decide (phase1Val cache game q' ≠ none)) then phase1Val cache game q
        else mapGet? res (resultKeyOf q) := by
  intro qs
  induction qs with
  | nil =>
    intro res unc hqs q hq6
    rw [batchPhase1_nil]
    simp
  | cons q0 rest ih =>
    intro res unc hqs q hq6
    have hq06 : q0.formId.data.length = 6 := hqs q0 (List.mem_cons_self ..)
    have hqs' : ∀ q' ∈ rest, q'.formId.data.length = 6 :=
      fun q' h => hqs q' (List.mem_cons_of_mem _ h)
    rw [batchPhase1_cons, List.any_cons]
    by_cases hh : mapHas cache (cacheKeyOf game q0.plugin q0.formId) = true
    · rw [if_pos hh]
      rcases hv : (mapGet? cache (cacheKeyOf game q0.plugin q0.formId)).getD none with _ | e0
      · have hp0 : phase1Val cache game q0 = none := by
          unfold phase1Val
          rw [if_pos hh, hv]
        rw [ih _ _ hqs' q hq6]
        simp [hp0]
      · have hp0 : phase1Val cache game q0 = some e0 := by
          unfold phase1Val
          rw [if_pos hh, hv]
        rw [ih _ _ hqs' q hq6]
        by_cases hkey : resultKeyOf q0 = resultKeyOf q
        · obtain ⟨hf, hp⟩ := resultKeyOf_inj hq06 hq6 hkey
          have hpeq : phase1Val cache game q = some e0 := by
            unfold phase1Val at hp0 ⊢
            rw [← hf, ← hp]
            exact hp0
          by_cases hrest : rest.any (fun q' => decide (resultKeyOf q' = resultKeyOf q) &&
              decide (phase1Val cache game q' ≠ none)) = true
          · rw [if_pos hrest, if_pos (by rw [hrest, Bool.or_true])]
          · rw [if_neg hrest, if_pos (by simp [hkey, hp0]), hkey, mapGet?_set_self, hpeq]
        · rw [mapGet?_set_ne _ _ _ _ (fun h2 => hkey h2.symm)]
          simp [hkey]
    · rw [if_neg hh]
      have hp0 : phase1Val cache game q0 = none := by
        unfold phase1Val
        rw [if_neg hh]
      rw [ih _ _ hqs' q hq6]
      simp [hp0]

/-- What the result map of the uncached loop answers at a query's key,
when the store never throws: the store's answer if some processed query
shares the key, else whatever phase 1 answered. -/
theorem batchLoop_get (st : DbState) (game : String)
    (htotal : ∀ f p, st.store game f p ≠ Except.error ()) :
    ∀ (us : List FormIdQuery) (res : List (String × FormIdDatabaseEntry))
      (cache : List (String × Option FormIdDatabaseEntry)) (tr : List FormIdQuery),
      (∀ q' ∈ us, q'.formId.data.length = 6) →
      ∀ (q : FormIdQuery), q.formId.data.length = 6 →
      mapGet? (batchLoop st game us res cache tr).1 (resultKeyOf q) =
        if us.any (fun q' => decide (resultKeyOf q' = resultKeyOf q) &&
            decide (storeValOf st game q' ≠ none)) then storeValOf st game q
        else mapGet? res (resultKeyOf q) := by
  intro us
  induction us with
  | nil =>
    intro res cache tr hus q hq6
    rw [batchLoop_nil]
    simp
  | cons q0 rest ih =>
    intro res cache tr hus q hq6
    have hq06 : q0.formId.data.length = 6 := hus q0 (List.mem_cons_self ..)
    have hus' : ∀ q' ∈ rest, q'.formId.data.length = 6 :=
      fun q' h => hus q' (List.mem_cons_of_mem _ h)
    rw [batchLoop_cons, List.any_cons]
    rcases hsv : st.store game (toUpperCaseStr q0.formId) q0.plugin with e | v
    · cases e
      exact absurd hsv (htotal _ _)
    · have hs0 : storeValOf st game q0 = v := by
        unfold storeValOf
        rw [hsv]
      rcases v with _ | row
      · rw [ih _ _ _ hus' q hq6]
        simp [hs0]
      · rw [ih _ _ _ hus' q hq6]
        by_cases hkey : resultKeyOf q0 = resultKeyOf q
        · obtain ⟨hf, hp⟩ := resultKeyOf_inj hq06 hq6 hkey
          have hseq : storeValOf st game q = some row := by
            unfold storeValOf at hs0 ⊢
            rw [← hf, ← hp]
            exact hs0
          by_cases hrest : rest.any (fun q' => decide (resultKeyOf q' = resultKeyOf q) &&
              decide (storeValOf st game q' ≠ none)) = true
          · rw [if_pos hrest, if_pos (by rw [hrest, Bool.or_true])]
          · rw [if_neg hrest, if_pos (by simp [hkey, hs0]), hkey, mapGet?_set_self, hseq]
        · rw [mapGet?_set_ne _ _ _ _ (fun h2 => hkey h2.symm)]
          simp [hkey]

/-- With a never-throwing store, the loop queries exactly the uncached
queries, in order. -/
theorem batchLoop_trace (st : DbState) (game : String)
    (htotal : ∀ f p, st.store game f p ≠ Except.error ()) :
    ∀ (us : List FormIdQuery) (res : List (String × FormIdDatabaseEntry))
      (cache : List (String × Option FormIdDatabaseEntry)) (tr : List FormIdQuery),
      (batchLoop st game us res cache tr).2.2 = tr ++ us := by
  intro us
  induction us with
  | nil =>
    intro res cache tr
    rw [batchLoop_nil]
    simp
  | cons q0 rest ih =>
    intro res cache tr
    rw [batchLoop_cons]
    rcases hsv : st.store game (toUpperCaseStr q0.formId) q0.plugin with e | v
    · cases e
      exact absurd hsv (htotal _ _)
    · rcases v with _ | row
      · rw [ih]
        simp
      · rw [ih]
        simp

/-- A cached single lookup answers from the cache, without touching the
store or the state. -/
theorem lookupFormId_cached (st : DbState) (formId plugin game : String)
    (hconn : st.connections.contains game = true)
    (hhit : mapHas st.cache (cacheKeyOf game plugin formId) = true) :
    lookupFormId st formId plugin game =
      ((mapGet? st.cache (cacheKeyOf game plugin formId)).getD none, st, false) := by
  unfold lookupFormId
  rw [if_neg (by simpa using hconn)]
  simp only []
  rw [if_pos hhit]

/-- An uncached single lookup against a never-throwing store answers the
store's value. -/
theorem lookupFormId_uncached_total (st : DbState) (formId plugin game : String)
    (hconn : st.connections.contains game = true)
    (hmiss : mapHas st.cache (cacheKeyOf game plugin formId) = false)
    (htotal : ∀ f p, st.store game f p ≠ Except.error ()) :
    (lookupFormId st formId plugin game).1 =
      storeValOf st game ⟨formId, plugin⟩ := by
  unfold lookupFormId
  rw [if_neg (by simpa using hconn)]
  simp only []
  rw [if_neg (by simp [hmiss])]
  unfold storeValOf
  rcases hsv : st.store game (toUpperCaseStr formId) plugin with e | v
  · cases e
    exact absurd hsv (htotal _ _)
  · rcases v with _ | row <;> rfl

/-- C8: with an open connection, a never-throwing (deterministic) store and
6-hex-digit record indices, the batch lookup's result map answers every
query exactly as a single lookup from the same state would (an entry is
present iff the single lookup returns one, with the identical entry), and
a query whose pair is already cached is not issued to the store. -/
theorem C8_batch_refines_single (st : DbState) (game : String)
    (queries : List FormIdQuery)
    (hconn : st.connections.contains game = true)
    (htotal : ∀ f p, st.store game f p ≠ Except.error ())
    (hlen : ∀ q ∈ queries, q.formId.data.length = 6) :
    ∀ q ∈ queries,
      mapGet? (lookupFormIdBatch st queries game).1 (resultKeyOf q) =
        (lookupFormId st q.formId q.plugin game).1 ∧
      (mapHas st.cache (cacheKeyOf game q.plugin q.formId) = true →
        q ∉ (lookupFormIdBatch st queries game).2.2) := by
  intro q hq
  have hq6 := hlen q hq
  have hqnil : queries ≠ [] := fun h => by
    rw [h] at hq
    exact absurd hq (List.not_mem_nil q)
  unfold lookupFormIdBatch
  rw [if_neg (by push_neg; exact ⟨by simpa using hconn, hqnil⟩)]
  simp only []
  have hget := batchPhase1_get st.cache game queries [] [] hlen q hq6
  have hres0 : mapGet? (batchPhase1 st.cache game queries [] []).1 (resultKeyOf q) =
      phase1Val st.cache game q := by
    rw [hget]
    by_cases hany : (queries.any fun q' => decide (resultKeyOf q' = resultKeyOf q) &&
        decide (phase1Val st.cache game q' ≠ none)) = true
    · rw [if_pos hany]
    · rw [if_neg hany]
      have hc : phase1Val st.cache game q = none := by
        by_contra hne
        exact absurd (List.any_eq_true.mpr ⟨q, hq, by simp [hne]⟩) hany
      rw [hc]
      rfl
  have hsingle_cached : mapHas st.cache (cacheKeyOf game q.plugin q.formId) = true →
      (lookupFormId st q.formId q.plugin game).1 = phase1Val st.cache game q := by
    intro hcq
    rw [lookupFormId_cached st q.formId q.plugin game hconn hcq]
    unfold phase1Val
    rw [if_pos hcq]
  by_cases hunc : (batchPhase1 st.cache game queries [] []).2 = []
  · rw [if_pos hunc]
    constructor
    · by_cases hcq : mapHas st.cache (cacheKeyOf game q.plugin q.formId) = true
      · rw [hres0, hsingle_cached hcq]
      · exfalso
        have hmem := batchPhase1_unc_complete st.cache game queries [] [] q hq
          (Bool.not_eq_true _ ▸ hcq)
        rw [hunc] at hmem
        exact absurd hmem (List.not_mem_nil q)
    · intro _
      exact List.not_mem_nil q
  · rw [if_neg hunc]
    have hus6 : ∀ q' ∈ (batchPhase1 st.cache game queries [] []).2,
        q'.formId.data.length = 6 := by
      intro q' hq'
      rcases batchPhase1_unc_mem st.cache game queries [] [] q' hq' with h1 | ⟨h2, _⟩
      · exact absurd h1 (List.not_mem_nil q')
      · exact hlen q' h2
    have hloopget := batchLoop_get st game htotal
      (batchPhase1 st.cache game queries [] []).2
      (batchPhase1 st.cache game queries [] []).1 st.cache [] hus6 q hq6
    have htrace := batchLoop_trace st game htotal
      (batchPhase1 st.cache game queries [] []).2
      (batchPhase1 st.cache game queries [] []).1 st.cache []
    by_cases hcq : mapHas st.cache (cacheKeyOf game q.plugin q.formId) = true
    · have hnotin : q ∉ (batchPhase1 st.cache game queries [] []).2 := by
        intro hqin
        rcases batchPhase1_unc_mem st.cache game queries [] [] q hqin with h1 | ⟨_, h3⟩
        · exact absurd h1 (List.not_mem_nil q)
        · rw [hcq] at h3
          exact Bool.true_eq_false.mp h3
      constructor
      · have hanyU : ((batchPhase1 st.cache game queries [] []).2.any
            fun q' => decide (resultKeyOf q' = resultKeyOf q) &&
              decide (storeValOf st game q' ≠ none)) = false := by
          rw [List.any_eq_false]
          intro q' hq'
          rcases batchPhase1_unc_mem st.cache game queries [] [] q' hq' with h1 | ⟨_, h3⟩
          · exact absurd h1 (List.not_mem_nil q')
          · have hkne : resultKeyOf q' ≠ resultKeyOf q := by
              intro hke
              obtain ⟨hf, hp⟩ := resultKeyOf_inj (hus6 q' hq') hq6 hke
              rw [← hf, ← hp, h3] at hcq
              exact Bool.false_eq_true.mp hcq
            simp [hkne]
        rw [hloopget, hanyU]
        simp only [Bool.false_eq_true, if_false]
        rw [hres0, hsingle_cached hcq]
      · intro _
        rw [htrace]
        simpa using hnotin
    · have hcq' : mapHas st.cache (cacheKeyOf game q.plugin q.formId) = false :=
        Bool.not_eq_true _ ▸ hcq
      have hqin : q ∈ (batchPhase1 st.cache game queries [] []).2 :=
        batchPhase1_unc_complete st.cache game queries [] [] q hq hcq'
      have hp1none : phase1Val st.cache game q = none := by
        unfold phase1Val
        rw [hcq']
        simp
      have hsingle : (lookupFormId st q.formId q.plugin game).1 =
          storeValOf st game ⟨q.formId, q.plugin⟩ :=
        lookupFormId_uncached_total st q.formId q.plugin game hconn hcq' htotal
      constructor
      · rw [hloopget, hsingle]
        by_cases hanyU : ((batchPhase1 st.cache game queries [] []).2.any
            fun q' => decide (resultKeyOf q' = resultKeyOf q) &&
              decide (storeValOf st game q' ≠ none)) = true
        · rw [if_pos hanyU]
        · rw [if_neg hanyU]
          have hsv : storeValOf st game q = none := by
            by_contra hne
            exact absurd (List.any_eq_true.mpr ⟨q, hqin, by simp [hne]⟩) hanyU
          rw [hres0, hp1none, hsv]
      · intro hcontra
        exact absurd hcontra hcq

theorem C8_batch_refines_single_witness :
    (witnessBatchState.connections.contains "fallout4" = true ∧
      (∀ f p, witnessBatchState.store "fallout4" f p ≠ Except.error ()) ∧
      (∀ q ∈ witnessBatchQueries, q.formId.data.length = 6) ∧
      (⟨"000abc", "A.esm"⟩ : FormIdQuery) ∈ witnessBatchQueries ∧
      (⟨"000DEF", "B.esm"⟩ : FormIdQuery) ∈ witnessBatchQueries) ∧
    (mapGet? (lookupFormIdBatch witnessBatchState witnessBatchQueries "fallout4").1
        (resultKeyOf ⟨"000abc", "A.esm"⟩) =
      (lookupFormId witnessBatchState "000abc" "A.esm" "fallout4").1 ∧
      (mapHas witnessBatchState.cache (cacheKeyOf "fallout4" "B.esm" "000DEF") = true →
        (⟨"000DEF", "B.esm"⟩ : FormIdQuery) ∉
          (lookupFormIdBatch witnessBatchState witnessBatchQueries "fallout4").2.2)) :=
  have htot : ∀ f p, witnessBatchState.store "fallout4" f p ≠ Except.error () :=
    fun _ _ h => Except.noConfusion h
  have hlen : ∀ q ∈ witnessBatchQueries, q.formId.data.length = 6 := by decide
  have h1 := C8_batch_refines_single witnessBatchState "fallout4" witnessBatchQueries
    rfl htot hlen ⟨"000abc", "A.esm"⟩ (by decide)
  have h2 := C8_batch_refines_single witnessBatchState "fallout4" witnessBatchQueries
    rfl htot hlen ⟨"000DEF", "B.esm"⟩ (by decide)
  ⟨⟨rfl, htot, hlen, by decide, by decide⟩, h1.1, h2.2⟩

/-! ### Claim C6: segmentation covers every line, with the transition rule -/

theorem segLoop_nil (i : Nat) (cur : Option LogSegment) (segs : List LogSegment) :
    segLoop [] i cur segs = segs ++ (match cur with
      | some c => [c]
      | none => []) := rfl

theorem segLoop_cons (line : String) (rest : List String) (i : Nat)
    (cur : Option LogSegment) (segs : List LogSegment) :
    segLoop (line :: rest) i cur segs =
      (let t := classifyLine i line
       if decide (t ≠ SegmentType.unknown) && (match cur with
           | none => true
           | some c => decide (t ≠ c.type)) then
         let segs' := match cur with
           | some c => segs ++ [{ c with endLine := i - 1 }]
           | none => segs
         segLoop rest (i + 1) (some ⟨t, i, i, [line]⟩) segs'
       else
         match cur with
         | some c =>
           segLoop rest (i + 1) (some { c with endLine := i, lines := c.lines ++ [line] }) segs
         | none => segLoop rest (i + 1) none segs) := rfl

theorem segLoop_append (rest : List String) :
    ∀ (i : Nat) (cur : Option LogSegment) (segs : List LogSegment),
      segLoop rest i cur segs = segs ++ segLoop rest i cur [] := by
  induction rest with
  | nil =>
    intro i cur segs
    rw [segLoop_nil, segLoop_nil]
    simp
  | cons line rest' ih =>
    intro i cur segs
    rw [segLoop_cons, segLoop_cons]
    cases cur with
    | none =>
      simp only []
      by_cases hcnd : (decide (classifyLine i line ≠ SegmentType.unknown) && true) = true
      · rw [if_pos hcnd, if_pos hcnd]
        exact ih (i + 1) _ segs
      · rw [if_neg hcnd, if_neg hcnd]
        exact ih (i + 1) none segs
    | some c =>
      simp only []
      by_cases hcnd : (decide (classifyLine i line ≠ SegmentType.unknown) &&
          decide (classifyLine i line ≠ c.type)) = true
      · rw [if_pos hcnd, if_pos hcnd]
        have h1 := ih (i + 1) (some ⟨classifyLine i line, i, i, [line]⟩)
          (segs ++ [{ c with endLine := i - 1 }])
        have h2 := ih (i + 1) (some ⟨classifyLine i line, i, i, [line]⟩)
          ([] ++ [{ c with endLine := i - 1 }])
        rw [h1, h2]
        simp
      · rw [if_neg hcnd, if_neg hcnd]
        exact ih (i + 1) _ segs

theorem classifyLine_lt20_ne_unknown (i : Nat) (line : String) (h : i < 20) :
    classifyLine i line ≠ SegmentType.unknown := by
  intro hcontra
  simp only [classifyLine] at hcontra
  split_ifs at hcontra

theorem segLoop_chain (lines : List String) :
    ∀ (rest : List String) (i : Nat) (c : LogSegment) (prevTy : Option SegmentType),
      rest = lines.drop i →
      i ≤ lines.length →
      c.endLine + 1 = i →
      c.startLine ≤ c.endLine →
      classifyLine c.startLine (lineAt lines c.startLine) = c.type →
      c.type ≠ SegmentType.unknown →
      (∀ m, c.startLine < m → m ≤ c.endLine →
        classifyLine m (lineAt lines m) = SegmentType.unknown ∨
        classifyLine m (lineAt lines m) = c.type) →
      c.lines = (lines.drop c.startLine).take (c.endLine + 1 - c.startLine) →
      (∀ pt, prevTy = some pt → c.type ≠ pt) →
      segChain lines c.startLine prevTy (segLoop rest i (some c) []) := by
  intro rest
  induction rest with
  | nil =>
    intro i c prevTy hdrop hile hend hse hcls hty hint hlines hprev
    rw [segLoop_nil]
    have hlen : lines.length ≤ i := by
      by_contra hcon
      push_neg at hcon
      have : lines.drop i ≠ [] := by
        intro hnil
        have := List.length_drop i lines ▸ congrArg List.length hnil
        simp at this
        omega
      exact this hdrop.symm
    have hieq : i = lines.length := by omega
    simp only [List.nil_append]
    unfold segChain
    refine ⟨rfl, hse, by omega, hcls, hty, hprev, hint, ?_, ?_⟩
    · exact hlines
    · unfold segChain
      omega
  | cons line rest' ih =>
    intro i c prevTy hdrop hile hend hse hcls hty hint hlines hprev
    have hlt : i < lines.length := by
      by_contra hcon
      push_neg at hcon
      rw [List.drop_eq_nil_of_le hcon] at hdrop
      exact absurd hdrop (by simp)
    have hline : lineAt lines i = line := by
      unfold lineAt
      rw [← hdrop]
      rfl
    have hrest' : rest' = lines.drop (i + 1) := by
      have h1 : lines.drop (i + 1) = (lines.drop i).drop 1 := by
        rw [List.drop_drop]
      rw [h1, ← hdrop]
      rfl
    have hgetem : lines[i]? = some line := by
      have h0 : (lines.drop i)[0]? = some line := by
        rw [← hdrop]
        simp
      rw [List.getElem?_drop] at h0
      simpa using h0
    rw [segLoop_cons]
    simp only []
    by_cases hcnd : (decide (classifyLine i line ≠ SegmentType.unknown) &&
        decide (classifyLine i line ≠ c.type)) = true
    · rw [if_pos hcnd]
      rw [Bool.and_eq_true, decide_eq_true_eq, decide_eq_true_eq] at hcnd
      obtain ⟨ht1, ht2⟩ := hcnd
      have hcid : ({ c with endLine := i - 1 } : LogSegment) = c := by
        obtain ⟨ct, cs, ce, cl⟩ := c
        simp only [LogSegment.mk.injEq, and_true, true_and]
        simp only [] at hend
        omega
      rw [hcid, segLoop_append]
      unfold segChain
      refine ⟨rfl, hse, by omega, hcls, hty, hprev, hint, ?_, ?_⟩
      · exact hlines
      · rw [hend]
        have hchain := ih (i + 1) ⟨classifyLine i line, i, i, [line]⟩ (some c.type)
          hrest' (by omega) rfl (by simp) (by simp [hline]) ht1
          (by
            intro m h1 h2
            simp only [] at h1 h2
            omega)
          (by
            simp only []
            rw [← hdrop]
            simp)
          (by
            intro pt hpt
            injection hpt with hpt'
            rw [← hpt']
            exact ht2)
        simpa using hchain
    · rw [if_neg hcnd]
      rw [Bool.and_eq_true, not_and_or] at hcnd
      have hdis : classifyLine i line = SegmentType.unknown ∨
          classifyLine i line = c.type := by
        rcases hcnd with h1 | h2
        · left
          simpa using h1
        · right
          simpa using h2
      have hchain := ih (i + 1) { c with endLine := i, lines := c.lines ++ [line] } prevTy
        hrest' (by omega) rfl (by simp only []; omega)
        (by simp only []; exact hcls) (by simp only []; exact hty)
        (by
          intro m h1 h2
          simp only [] at h1 h2 ⊢
          by_cases hmi : m = i
          · subst hmi
            rw [hline]
            exact hdis
          · exact hint m h1 (by omega))
        (by
          simp only []
          have harith : i + 1 - c.startLine = (i - c.startLine) + 1 := by omega
          rw [harith, List.take_succ]
          have hidx : (lines.drop c.startLine)[i - c.startLine]? = some line := by
            rw [List.getElem?_drop]
            have : c.startLine + (i - c.startLine) = i := by omega
            rw [this]
            exact hgetem
          rw [hidx]
          have hold : c.endLine + 1 - c.startLine = i - c.startLine := by omega
          rw [hold] at hlines
          rw [← hlines]
          rfl)
        (by simp only []; exact hprev)
      simpa using hchain

theorem segChain_flatten (lines : List String) :
    ∀ (segs : List LogSegment) (i : Nat) (prevTy : Option SegmentType),
      segChain lines i prevTy segs →
      (segs.map LogSegment.lines).flatten = lines.drop i := by
  intro segs
  induction segs with
  | nil =>
    intro i prevTy h
    unfold segChain at h
    rw [List.drop_eq_nil_of_le (by omega)]
    rfl
  | cons s rest ih =>
    intro i prevTy h
    unfold segChain at h
    obtain ⟨hstart, hle, hlt, hcls, hty, hprev, hint, hlines, hchain⟩ := h
    simp only [List.map_cons, List.flatten_cons]
    rw [ih _ _ hchain, hlines]
    have h1 : lines.drop (s.endLine + 1) = (lines.drop i).drop (s.endLine + 1 - i) := by
      rw [List.drop_drop]
      congr 1
      omega
    rw [h1, List.take_append_drop]

/-- C6: the segments of `parseLogSegments`, in order, cover every line of
the document exactly once (their stored lines flatten back to the split
document), and they satisfy the transition contract `segChain`: a segment
begins exactly at the lines whose classification is non-unknown and
different from the open segment's type (the first line always opens one),
and every other line — unknown-classified ones included — is appended to
the open segment. -/
theorem C6_segmentation (content : String) (game : String) :
    ((parseLogSegments content game).segments.map LogSegment.lines).flatten =
      splitLines content ∧
    segChain (splitLines content) 0 none (parseLogSegments content game).segments := by
  have hchain : ∀ (lines : List String),
      segChain lines 0 none (segLoop lines 0 none []) := by
    intro lines
    rcases hsplit : lines with _ | ⟨l0, lrest⟩
    · rw [segLoop_nil]
      unfold segChain
      simp
    · rw [segLoop_cons]
      simp only []
      have ht1 : classifyLine 0 l0 ≠ SegmentType.unknown :=
        classifyLine_lt20_ne_unknown 0 l0 (by omega)
      rw [if_pos (by simp [ht1])]
      have hres := segLoop_chain (l0 :: lrest) lrest 1
        ⟨classifyLine 0 l0, 0, 0, [l0]⟩ none rfl (by simp) rfl (by simp)
        (by simp [lineAt]) ht1
        (by
          intro m h1 h2
          simp only [] at h1 h2
          omega)
        (by simp)
        (by intro pt hpt; exact absurd hpt (by simp))
      simpa using hres
  constructor
  · have h := segChain_flatten (splitLines content) _ 0 none (hchain (splitLines content))
    simpa using h
  · exact hchain (splitLines content)

end Scanner
